import Mathlib

/-!
Shallow embedding of the real-time pacing and backpressure subsystem of
`src/host.c` (binjgb SDL host layer): audio delivery with watermarks
(`host_render_audio`, `host_reset_audio`, `host_init_audio`), run-loop cycle
accounting (`host_run_ms`), resize geometry (`host_poll_events`, resize case)
and configuration handling (`host_set_config`).

Machine integers are modelled as `Nat` with explicit `% 2^w` where overflow
matters (the `u32` cycle arithmetic, the `u16` sample store).  The `f32`
geometry and the `f64` millisecond arithmetic are modelled over exact
rationals.
-/

namespace Binjgb

/-- `#define AUDIO_SPEC_SAMPLE_SIZE sizeof(HostAudioSample)`, `HostAudioSample = u16`. -/
def AUDIO_SPEC_SAMPLE_SIZE : ℕ := 2

/-- `#define AUDIO_SPEC_CHANNELS 2`. -/
def AUDIO_SPEC_CHANNELS : ℕ := 2

/-- `#define AUDIO_FRAME_SIZE (AUDIO_SPEC_SAMPLE_SIZE * AUDIO_SPEC_CHANNELS)`. -/
def AUDIO_FRAME_SIZE : ℕ := AUDIO_SPEC_SAMPLE_SIZE * AUDIO_SPEC_CHANNELS

/-- `#define AUDIO_CONVERT_SAMPLE_FROM_U8(X) ((X) << 8)`, stored into a `u16`
slot of the staging buffer (hence the `% 2^16`). -/
def audioConvertSampleFromU8 (x : ℕ) : ℕ := (x <<< 8) % 2 ^ 16

/-- The host audio state (`HostAudio` plus the observable state of the SDL
audio device): negotiated buffer size in bytes (`spec.size`), the device's
queue of 16-bit samples (`SDL_QueueAudio` appends, the device drains from the
front), the `ready` flag, and whether the device is paused. -/
structure HostAudio where
  specSize : ℕ
  deviceQueue : List ℕ
  ready : Bool
  devicePaused : Bool
deriving Repr, DecidableEq

/-- `SDL_GetQueuedAudioSize`: bytes currently queued on the device
(each queued sample is `AUDIO_SPEC_SAMPLE_SIZE = 2` bytes). -/
def HostAudio.queuedBytes (a : HostAudio) : ℕ :=
  AUDIO_SPEC_SAMPLE_SIZE * a.deviceQueue.length

/-- `#define AUDIO_MAX_QUEUED_SIZE (5 * host->audio.spec.size)`. -/
def audioMaxQueuedSize (a : HostAudio) : ℕ := 5 * a.specSize

/-- `#define AUDIO_TARGET_QUEUED_SIZE (2 * host->audio.spec.size)`. -/
def audioTargetQueuedSize (a : HostAudio) : ℕ := 2 * a.specSize

/-- `host_init_audio`: `ready = FALSE`, empty device queue, device paused
(SDL opens audio devices paused). -/
def hostInitAudio (specSize : ℕ) : HostAudio :=
  { specSize := specSize, deviceQueue := [], ready := false, devicePaused := true }

/-- `host_reset_audio`: `ready = FALSE`, `SDL_ClearQueuedAudio`,
`SDL_PauseAudioDevice(dev, 1)`. -/
def hostResetAudio (a : HostAudio) : HostAudio :=
  { a with ready := false, deviceQueue := [], devicePaused := true }

/-- `frames = MIN(src_frames, max_dst_frames)` where
`max_dst_frames = audio->spec.size / AUDIO_FRAME_SIZE`. -/
def framesFor (srcFrames specSize : ℕ) : ℕ :=
  min srcFrames (specSize / AUDIO_FRAME_SIZE)

/-- The conversion loop of `host_render_audio`: with
`src_frames = audio_buffer_get_frames(..)` (two interleaved u8 samples per
frame), it writes `AUDIO_SPEC_CHANNELS * frames` converted samples into the
staging buffer. -/
def convertChunk (src : List ℕ) (specSize : ℕ) : List ℕ :=
  (src.take (AUDIO_SPEC_CHANNELS * framesFor (src.length / 2) specSize)).map
    audioConvertSampleFromU8

/-- The trailing `if (!audio->ready && queued_size >= AUDIO_TARGET_QUEUED_SIZE)`
block of `host_render_audio`: sets `ready` and unpauses the device. -/
def audioCheckReady (a : HostAudio) (queuedSize : ℕ) : HostAudio :=
  if a.ready = false ∧ audioTargetQueuedSize a ≤ queuedSize then
    { a with ready := true, devicePaused := false }
  else a

/-- `host_render_audio` (the AudioPacer's `deliver()`): convert, then enqueue
the chunk only when `queued_size < AUDIO_MAX_QUEUED_SIZE`, then the ready /
unpause check on the updated `queued_size`. -/
def hostRenderAudio (audio : HostAudio) (src : List ℕ) : HostAudio :=
  let chunk := convertChunk src audio.specSize
  let queuedSize := audio.queuedBytes
  if queuedSize < audioMaxQueuedSize audio then
    audioCheckReady { audio with deviceQueue := audio.deviceQueue ++ chunk }
      (queuedSize + AUDIO_SPEC_SAMPLE_SIZE * chunk.length)
  else
    audioCheckReady audio queuedSize

/-- Events acting on the audio state between observations: a delivery
(`host_render_audio` on a source sample list), the device draining `n`
queued samples on its own schedule, or `host_reset_audio`. -/
inductive HostAudioOp where
  | deliver (src : List ℕ)
  | drain (n : ℕ)
  | reset
deriving Repr, DecidableEq

/-- One audio event. -/
def stepAudio (a : HostAudio) : HostAudioOp → HostAudio
  | .deliver src => hostRenderAudio a src
  | .drain n => { a with deviceQueue := a.deviceQueue.drop n }
  | .reset => hostResetAudio a

/-- A sequence of audio events. -/
def runAudio (a : HostAudio) (ops : List HostAudioOp) : HostAudio :=
  ops.foldl stepAudio a

/-- Number of Priming→Ready transitions (the `ready` flag flipping from
`false` to `true`) along a sequence of audio events. -/
def fireCount : HostAudio → List HostAudioOp → ℕ
  | _, [] => 0
  | a, op :: rest =>
      (if a.ready = false ∧ (stepAudio a op).ready = true then 1 else 0) +
        fireCount (stepAudio a op) rest

/-- `HostConfig` (from `host.h`): the flags `host_set_config` and
`host_run_ms` read and write. -/
structure HostConfig where
  paused : Bool
  step : Bool
  fullscreen : Bool
  noSync : Bool
deriving Repr, DecidableEq

/-- The host state relevant to the pacing subsystem: the config, the audio
state, and the emulation core's cycle counter (a `u32`, kept `< 2^32`). -/
structure HostState where
  config : HostConfig
  audio : HostAudio
  cycles : ℕ
deriving Repr, DecidableEq

/-- `host_set_config`: a `no_sync` change and a `paused` change each call
`host_reset_audio`; a `fullscreen` change only toggles the SDL window
(no modelled state); finally `host->config = *new_config`. -/
def hostSetConfig (host : HostState) (newConfig : HostConfig) : HostState :=
  let audio :=
    if host.config.noSync ≠ newConfig.noSync then hostResetAudio host.audio
    else host.audio
  let audio :=
    if host.config.paused ≠ newConfig.paused then hostResetAudio audio
    else audio
  { host with config := newConfig, audio := audio }

/-- Modelled from the spec: `CPU_CYCLES_PER_SECOND` lives in `emulator.h`,
which is not part of this tree; §8 scenario 3 fixes it at 4194304. -/
def CPU_CYCLES_PER_SECOND : ℕ := 4194304

/-- The modulus of the C `u32` type. -/
def U32_MOD : ℕ := 2 ^ 32

/-- `u32 delta_cycles = (u32)(delta_ms * CPU_CYCLES_PER_SECOND / 1000)` of
`host_run_ms`, with the `f64` arithmetic modelled over exact rationals
(the cast to `u32` truncates toward zero). -/
def deltaCyclesOf (deltaMs : ℚ) : ℕ :=
  Nat.floor (deltaMs * CPU_CYCLES_PER_SECOND / 1000) % U32_MOD

/-- `u32 until_cycles = emulator_get_cycles(e) + delta_cycles` of
`host_run_ms` (`u32` addition wraps). -/
def untilCyclesOf (host : HostState) (deltaMs : ℚ) : ℕ :=
  (host.cycles + deltaCyclesOf deltaMs) % U32_MOD

/-- `host_run_ms`.  The emulation core is external (`emulator.c` is not part
of this tree); its loop behaviour is modelled from the spec: each
`emulator_run_until` call either reports intermediate events (NEW_FRAME
uploads video — no modelled state — and AUDIO_BUFFER_FULL delivers the
pending source samples to `host_render_audio`) or reports
`EMULATOR_EVENT_UNTIL_CYCLES`, ending the loop with the core having advanced
exactly to `until_cycles`.  `interm` lists the intermediate events: for each,
whether AUDIO_BUFFER_FULL was raised, and the pending source samples. -/
def hostRunMs (host : HostState) (deltaMs : ℚ) (interm : List (Bool × List ℕ)) :
    HostState :=
  if host.config.paused = true then host
  else
    let untilCycles := untilCyclesOf host deltaMs
    let audio := interm.foldl
      (fun a ev => if ev.1 = true then hostRenderAudio a ev.2 else a) host.audio
    let host1 : HostState := { host with audio := audio, cycles := untilCycles }
    let config := host1.config
    if config.step = true then
      hostSetConfig host1 { config with paused := true, step := false }
    else host1

/-- One vertex record (`HostVertex`): position and texture coordinate,
`f32` modelled over exact rationals. -/
structure HostVertex where
  pos : ℚ × ℚ
  texCoord : ℚ × ℚ
deriving Repr, DecidableEq

/-- The `host->vertices[4]` array. -/
structure HostVertices where
  v0 : HostVertex
  v1 : HostVertex
  v2 : HostVertex
  v3 : HostVertex
deriving Repr, DecidableEq

/-- `#define TEXTURE_WIDTH 256` (as a rational, for the `f32` tex coords). -/
def TEXTURE_WIDTH : ℚ := 256

/-- `#define TEXTURE_HEIGHT 256`. -/
def TEXTURE_HEIGHT : ℚ := 256

/-- `f32 new_w = aspect < want_aspect ? w : h * want_aspect` of the
`SDL_WINDOWEVENT_RESIZED` case, with `aspect = w / h` and
`want_aspect = SCREEN_WIDTH / SCREEN_HEIGHT` (`screenW`, `screenH`:
the core's fixed resolution lives in `emulator.h`, outside this tree, so the
two constants are parameters). -/
def newWidthOf (screenW screenH w h : ℚ) : ℚ :=
  if w / h < screenW / screenH then w else h * (screenW / screenH)

/-- `f32 new_h = aspect < want_aspect ? w / want_aspect : h`. -/
def newHeightOf (screenW screenH w h : ℚ) : ℚ :=
  if w / h < screenW / screenH then w / (screenW / screenH) else h

/-- The four `SET_VERTEX` statements of the resize case of
`host_poll_events`: quad corners `(new_left, new_top)` … and texture
coordinates up to `u_right = SCREEN_WIDTH / TEXTURE_WIDTH`,
`v_bottom = SCREEN_HEIGHT / TEXTURE_HEIGHT`. -/
def resizeVertices (screenW screenH w h : ℚ) : HostVertices :=
  let newW := newWidthOf screenW screenH w h
  let newH := newHeightOf screenW screenH w h
  let newLeft := (w - newW) / 2
  let newRight := newLeft + newW
  let newTop := (h - newH) / 2
  let newBottom := newTop + newH
  let uRight := screenW / TEXTURE_WIDTH
  let vBottom := screenH / TEXTURE_HEIGHT
  { v0 := { pos := (newLeft, newTop), texCoord := (0, 0) }
    v1 := { pos := (newLeft, newBottom), texCoord := (0, vBottom) }
    v2 := { pos := (newRight, newTop), texCoord := (uRight, 0) }
    v3 := { pos := (newRight, newBottom), texCoord := (uRight, vBottom) } }

/-- Width of the recomputed quad: x of the right vertices minus x of the
left vertices. -/
def quadWidthOf (screenW screenH w h : ℚ) : ℚ :=
  (resizeVertices screenW screenH w h).v3.pos.1 - (resizeVertices screenW screenH w h).v0.pos.1

/-- Height of the recomputed quad: y of the bottom vertices minus y of the
top vertices. -/
def quadHeightOf (screenW screenH w h : ℚ) : ℚ :=
  (resizeVertices screenW screenH w h).v3.pos.2 - (resizeVertices screenW screenH w h).v0.pos.2

/-- Blank border left of the quad. -/
def quadLeftBorderOf (screenW screenH w h : ℚ) : ℚ :=
  (resizeVertices screenW screenH w h).v0.pos.1

/-- Blank border right of the quad (viewport width minus the quad's right edge). -/
def quadRightBorderOf (screenW screenH w h : ℚ) : ℚ :=
  w - (resizeVertices screenW screenH w h).v3.pos.1

/-- Blank border above the quad. -/
def quadTopBorderOf (screenW screenH w h : ℚ) : ℚ :=
  (resizeVertices screenW screenH w h).v0.pos.2

/-- Blank border below the quad (viewport height minus the quad's bottom edge). -/
def quadBottomBorderOf (screenW screenH w h : ℚ) : ℚ :=
  h - (resizeVertices screenW screenH w h).v3.pos.2

/-- A sequence of deliveries against an 8-byte device buffer:
nine one-frame deliveries (4 bytes each) followed by a two-frame delivery. -/
def cexDeliverOps : List HostAudioOp :=
  List.replicate 9 (HostAudioOp.deliver [0, 0]) ++ [HostAudioOp.deliver [0, 0, 0, 0]]

/-- A running host whose cycle counter sits at the top of the `u32` range. -/
def cexHost : HostState :=
  { config := { paused := false, step := false, fullscreen := false, noSync := false },
    audio := hostInitAudio 8, cycles := U32_MOD - 1 }

/-- A freshly started, running host. -/
def freshHost : HostState :=
  { config := { paused := false, step := false, fullscreen := false, noSync := false },
    audio := hostInitAudio 8, cycles := 0 }

/-- A running host with a pending single-step request. -/
def steppingHost : HostState :=
  { config := { paused := false, step := true, fullscreen := false, noSync := false },
    audio := hostInitAudio 8, cycles := 0 }

/-- An audio state whose device queue sits exactly at the maximum watermark
(specSize 2, five queued samples = 10 bytes = 5 × 2). -/
def fullAudio : HostAudio :=
  { specSize := 2, deviceQueue := [0, 0, 0, 0, 0], ready := true, devicePaused := false }

/-- A config differing from `freshHost`'s only in `paused`. -/
def pausedConfig : HostConfig :=
  { paused := true, step := false, fullscreen := false, noSync := false }

/-- A config differing from `freshHost`'s only in `fullscreen`. -/
def fullscreenConfig : HostConfig :=
  { paused := false, step := false, fullscreen := true, noSync := false }

/-! ### Helper lemmas -/

theorem audioCheckReady_deviceQueue (a : HostAudio) (q : ℕ) :
    (audioCheckReady a q).deviceQueue = a.deviceQueue := by
  unfold audioCheckReady; split <;> rfl

theorem audioCheckReady_specSize (a : HostAudio) (q : ℕ) :
    (audioCheckReady a q).specSize = a.specSize := by
  unfold audioCheckReady; split <;> rfl

theorem audioCheckReady_queuedBytes (a : HostAudio) (q : ℕ) :
    (audioCheckReady a q).queuedBytes = a.queuedBytes := by
  unfold HostAudio.queuedBytes
  rw [audioCheckReady_deviceQueue]

theorem convertChunk_length (src : List ℕ) (s : ℕ) :
    (convertChunk src s).length = AUDIO_SPEC_CHANNELS * framesFor (src.length / 2) s := by
  have hle : framesFor (src.length / 2) s ≤ src.length / 2 := min_le_left _ _
  simp only [convertChunk, List.length_map, List.length_take, AUDIO_SPEC_CHANNELS] at *
  omega

theorem hostRenderAudio_deviceQueue_of_lt (a : HostAudio) (src : List ℕ)
    (h : a.queuedBytes < audioMaxQueuedSize a) :
    (hostRenderAudio a src).deviceQueue = a.deviceQueue ++ convertChunk src a.specSize := by
  unfold hostRenderAudio
  rw [if_pos h, audioCheckReady_deviceQueue]

theorem hostRenderAudio_deviceQueue_of_ge (a : HostAudio) (src : List ℕ)
    (h : ¬a.queuedBytes < audioMaxQueuedSize a) :
    (hostRenderAudio a src).deviceQueue = a.deviceQueue := by
  unfold hostRenderAudio
  rw [if_neg h, audioCheckReady_deviceQueue]

theorem hostRenderAudio_queuedBytes_of_lt (a : HostAudio) (src : List ℕ)
    (h : a.queuedBytes < audioMaxQueuedSize a) :
    (hostRenderAudio a src).queuedBytes =
      a.queuedBytes + AUDIO_FRAME_SIZE * framesFor (src.length / 2) a.specSize := by
  unfold HostAudio.queuedBytes
  rw [hostRenderAudio_deviceQueue_of_lt a src h]
  rw [List.length_append, convertChunk_length]
  unfold AUDIO_FRAME_SIZE AUDIO_SPEC_SAMPLE_SIZE AUDIO_SPEC_CHANNELS
  ring

theorem hostRenderAudio_queuedBytes_of_ge (a : HostAudio) (src : List ℕ)
    (h : ¬a.queuedBytes < audioMaxQueuedSize a) :
    (hostRenderAudio a src).queuedBytes = a.queuedBytes := by
  unfold HostAudio.queuedBytes
  rw [hostRenderAudio_deviceQueue_of_ge a src h]

theorem hostRenderAudio_specSize (a : HostAudio) (src : List ℕ) :
    (hostRenderAudio a src).specSize = a.specSize := by
  by_cases h : a.queuedBytes < audioMaxQueuedSize a
  · unfold hostRenderAudio
    rw [if_pos h, audioCheckReady_specSize]
  · unfold hostRenderAudio
    rw [if_neg h, audioCheckReady_specSize]

theorem audioCheckReady_ready_of_ready (a : HostAudio) (q : ℕ) (h : a.ready = true) :
    (audioCheckReady a q).ready = true := by
  unfold audioCheckReady
  split <;> simp [h]

theorem hostRenderAudio_ready_of_ready (a : HostAudio) (src : List ℕ) (h : a.ready = true) :
    (hostRenderAudio a src).ready = true := by
  by_cases hq : a.queuedBytes < audioMaxQueuedSize a
  · unfold hostRenderAudio
    rw [if_pos hq]
    exact audioCheckReady_ready_of_ready _ _ h
  · unfold hostRenderAudio
    rw [if_neg hq]
    exact audioCheckReady_ready_of_ready _ _ h

theorem audioCheckReady_ready_iff (a : HostAudio) (q : ℕ) (ha : a.ready = false)
    (hq : a.queuedBytes = q) :
    ((audioCheckReady a q).ready = true ↔
      audioTargetQueuedSize a ≤ (audioCheckReady a q).queuedBytes) := by
  rw [audioCheckReady_queuedBytes, hq]
  unfold audioCheckReady
  split_ifs with hcond
  · exact ⟨fun _ => hcond.2, fun _ => rfl⟩
  · exact ⟨fun hf => absurd hf (by simp [ha]), fun hle => absurd ⟨ha, hle⟩ hcond⟩

theorem hostRenderAudio_ready_iff (a : HostAudio) (src : List ℕ) (ha : a.ready = false) :
    ((hostRenderAudio a src).ready = true ↔
      audioTargetQueuedSize a ≤ (hostRenderAudio a src).queuedBytes) := by
  by_cases hq : a.queuedBytes < audioMaxQueuedSize a
  · unfold hostRenderAudio
    rw [if_pos hq]
    exact audioCheckReady_ready_iff _ _ ha (by
      unfold HostAudio.queuedBytes
      simp only [List.length_append]
      ring)
  · unfold hostRenderAudio
    rw [if_neg hq]
    exact audioCheckReady_ready_iff a _ ha rfl

theorem audioCheckReady_devicePaused (a : HostAudio) (q : ℕ) (ha : a.ready = false)
    (h : (audioCheckReady a q).ready = true) : (audioCheckReady a q).devicePaused = false := by
  unfold audioCheckReady at h ⊢
  split_ifs at h ⊢ with hcond
  · rfl
  · exact absurd h (by simp [ha])

theorem hostRenderAudio_unpauses (a : HostAudio) (src : List ℕ) (ha : a.ready = false)
    (h : (hostRenderAudio a src).ready = true) :
    (hostRenderAudio a src).devicePaused = false := by
  by_cases hq : a.queuedBytes < audioMaxQueuedSize a
  · unfold hostRenderAudio at h ⊢
    rw [if_pos hq] at h ⊢
    exact audioCheckReady_devicePaused _ _ ha h
  · unfold hostRenderAudio at h ⊢
    rw [if_neg hq] at h ⊢
    exact audioCheckReady_devicePaused _ _ ha h

theorem stepAudio_ready_of_ready (a : HostAudio) (op : HostAudioOp)
    (hop : op ≠ HostAudioOp.reset) (h : a.ready = true) : (stepAudio a op).ready = true := by
  cases op with
  | deliver src => exact hostRenderAudio_ready_of_ready a src h
  | drain n => exact h
  | reset => exact absurd rfl hop

theorem fireCount_zero_of_ready (ops : List HostAudioOp) :
    ∀ a : HostAudio, (∀ op ∈ ops, op ≠ HostAudioOp.reset) → a.ready = true →
      fireCount a ops = 0 := by
  induction ops with
  | nil => intro a _ _; rfl
  | cons op rest ih =>
      intro a hops ha
      have hop : op ≠ HostAudioOp.reset := hops op (List.mem_cons_self _ _)
      have hstep : (stepAudio a op).ready = true := stepAudio_ready_of_ready a op hop ha
      unfold fireCount
      rw [ih (stepAudio a op) (fun o ho => hops o (List.mem_cons_of_mem _ ho)) hstep]
      rw [if_neg (by rw [ha]; rintro ⟨h1, -⟩; cases h1)]

theorem fireCount_le_one (ops : List HostAudioOp) :
    ∀ a : HostAudio, (∀ op ∈ ops, op ≠ HostAudioOp.reset) → fireCount a ops ≤ 1 := by
  induction ops with
  | nil => intro a _; exact Nat.zero_le 1
  | cons op rest ih =>
      intro a hops
      have hop : op ≠ HostAudioOp.reset := hops op (List.mem_cons_self _ _)
      have hrest : ∀ o ∈ rest, o ≠ HostAudioOp.reset :=
        fun o ho => hops o (List.mem_cons_of_mem _ ho)
      unfold fireCount
      by_cases hfire : a.ready = false ∧ (stepAudio a op).ready = true
      · rw [if_pos hfire, fireCount_zero_of_ready rest (stepAudio a op) hrest hfire.2]
      · rw [if_neg hfire]
        simpa using ih (stepAudio a op) hrest

theorem stepAudio_specSize (a : HostAudio) (op : HostAudioOp) :
    (stepAudio a op).specSize = a.specSize := by
  cases op with
  | deliver src => exact hostRenderAudio_specSize a src
  | drain n => rfl
  | reset => rfl

theorem convertChunk_bytes_le (src : List ℕ) (s : ℕ) :
    AUDIO_SPEC_SAMPLE_SIZE * (convertChunk src s).length ≤ s := by
  rw [convertChunk_length]
  have hle : framesFor (src.length / 2) s ≤ s / AUDIO_FRAME_SIZE := min_le_right _ _
  unfold AUDIO_FRAME_SIZE AUDIO_SPEC_SAMPLE_SIZE AUDIO_SPEC_CHANNELS at *
  omega

theorem stepAudio_queuedBytes_bound (a : HostAudio) (op : HostAudioOp)
    (hpos : 0 < a.specSize) (h : a.queuedBytes < 6 * a.specSize) :
    (stepAudio a op).queuedBytes < 6 * a.specSize := by
  cases op with
  | deliver src =>
      by_cases hq : a.queuedBytes < audioMaxQueuedSize a
      · have hbytes := convertChunk_bytes_le src a.specSize
        have heq := hostRenderAudio_queuedBytes_of_lt a src hq
        have hfr : framesFor (src.length / 2) a.specSize ≤ a.specSize / AUDIO_FRAME_SIZE :=
          min_le_right _ _
        unfold audioMaxQueuedSize at hq
        unfold stepAudio
        rw [heq]
        unfold AUDIO_FRAME_SIZE AUDIO_SPEC_SAMPLE_SIZE AUDIO_SPEC_CHANNELS at *
        omega
      · unfold stepAudio
        rw [hostRenderAudio_queuedBytes_of_ge a src hq]
        exact h
  | drain n =>
      unfold stepAudio HostAudio.queuedBytes AUDIO_SPEC_SAMPLE_SIZE at *
      rw [List.length_drop]
      omega
  | reset =>
      unfold stepAudio hostResetAudio HostAudio.queuedBytes
      simpa using by omega

theorem runAudio_queuedBytes_bound (ops : List HostAudioOp) :
    ∀ a : HostAudio, 0 < a.specSize → a.queuedBytes < 6 * a.specSize →
      (runAudio a ops).queuedBytes < 6 * a.specSize := by
  induction ops with
  | nil => intro a _ h; exact h
  | cons op rest ih =>
      intro a hpos h
      have hspec := stepAudio_specSize a op
      have hnext := stepAudio_queuedBytes_bound a op hpos h
      have := ih (stepAudio a op) (by rw [hspec]; exact hpos) (by rw [hspec]; exact hnext)
      rw [hspec] at this
      exact this

theorem hostSetConfig_cycles (host : HostState) (c : HostConfig) :
    (hostSetConfig host c).cycles = host.cycles := rfl

theorem hostSetConfig_config (host : HostState) (c : HostConfig) :
    (hostSetConfig host c).config = c := rfl

theorem hostRunMs_cycles (host : HostState) (deltaMs : ℚ) (interm : List (Bool × List ℕ))
    (hp : host.config.paused = false) :
    (hostRunMs host deltaMs interm).cycles = untilCyclesOf host deltaMs := by
  simp only [hostRunMs, hp, Bool.false_eq_true, if_false]
  split
  · rw [hostSetConfig_cycles]
  · rfl

theorem deltaCyclesOf_1000 : deltaCyclesOf 1000 = 4194304 := by
  unfold deltaCyclesOf CPU_CYCLES_PER_SECOND U32_MOD
  norm_num

theorem newWidthOf_div_newHeightOf (screenW screenH w h : ℚ) (hw : 0 < w) (hh : 0 < h) :
    newWidthOf screenW screenH w h / newHeightOf screenW screenH w h = screenW / screenH := by
  have hw0 : w ≠ 0 := ne_of_gt hw
  have hh0 : h ≠ 0 := ne_of_gt hh
  unfold newWidthOf newHeightOf
  split_ifs with hc
  · rw [div_div_eq_mul_div, mul_comm, mul_div_assoc, div_self hw0, mul_one]
  · rw [mul_comm, mul_div_assoc, div_self hh0, mul_one]

theorem quadWidthOf_eq (screenW screenH w h : ℚ) :
    quadWidthOf screenW screenH w h = newWidthOf screenW screenH w h := by
  unfold quadWidthOf resizeVertices
  ring

theorem quadHeightOf_eq (screenW screenH w h : ℚ) :
    quadHeightOf screenW screenH w h = newHeightOf screenW screenH w h := by
  unfold quadHeightOf resizeVertices
  ring

theorem newWidthOf_of_le (screenW screenH w h : ℚ) (hh : 0 < h)
    (hle : w / h ≤ screenW / screenH) : newWidthOf screenW screenH w h = w := by
  unfold newWidthOf
  split_ifs with hc
  · rfl
  · have heq : w / h = screenW / screenH := le_antisymm hle (not_lt.mp hc)
    rw [← heq, mul_div_cancel₀ w (ne_of_gt hh)]

theorem newHeightOf_of_gt (screenW screenH w h : ℚ)
    (hgt : screenW / screenH < w / h) : newHeightOf screenW screenH w h = h := by
  unfold newHeightOf
  rw [if_neg (by exact not_lt.mpr (le_of_lt hgt))]

/-! ### Claim theorems -/

/-- C1 counterexample: from a fresh 8-byte device, nine one-frame deliveries
(4 bytes each) reach 36 queued bytes, still under the 40-byte maximum
watermark, so a tenth, two-frame delivery is admitted and leaves 44 bytes
queued — more than `AUDIO_MAX_QUEUED_SIZE = 5 * spec.size = 40`. -/
theorem c1_queued_can_exceed_max_watermark :
    audioMaxQueuedSize (hostInitAudio 8) <
      (runAudio (hostInitAudio 8) cexDeliverOps).queuedBytes := by decide

/-- C1 (amended): after any sequence of deliveries, device drains and resets
starting from a fresh device with positive buffer size, the queued byte count
stays strictly below `AUDIO_MAX_QUEUED_SIZE + spec.size` (6× the device
buffer size): a delivery is only admitted below the watermark and adds at
most one buffer of bytes. -/
theorem c1_queued_lt_max_watermark_add_size (s : ℕ) (ops : List HostAudioOp)
    (hs : 0 < s) :
    (runAudio (hostInitAudio s) ops).queuedBytes <
      audioMaxQueuedSize (hostInitAudio s) + s := by
  have h0 : (hostInitAudio s).queuedBytes < 6 * (hostInitAudio s).specSize := by
    simp only [hostInitAudio, HostAudio.queuedBytes, List.length_nil, Nat.mul_zero]
    omega
  have h := runAudio_queuedBytes_bound ops (hostInitAudio s) hs h0
  simp only [hostInitAudio] at h
  simp only [audioMaxQueuedSize, hostInitAudio]
  omega

theorem c1_queued_lt_max_watermark_add_size_witness :
    0 < 8 ∧
    (runAudio (hostInitAudio 8) [HostAudioOp.deliver [1, 2]]).queuedBytes <
      audioMaxQueuedSize (hostInitAudio 8) + 8 :=
  ⟨by decide, c1_queued_lt_max_watermark_add_size 8 [HostAudioOp.deliver [1, 2]] (by decide)⟩

/-- C2: in `host_render_audio`, if the queried queued byte count is at least
`AUDIO_MAX_QUEUED_SIZE` the whole converted chunk is dropped (device queue and
queued byte count unchanged, no error — the function is total); otherwise the
whole chunk is appended and the queued byte count grows by exactly the
chunk's byte size. -/
theorem c2_backpressure_drop_or_append (a : HostAudio) (src : List ℕ) :
    (audioMaxQueuedSize a ≤ a.queuedBytes →
      (hostRenderAudio a src).deviceQueue = a.deviceQueue ∧
      (hostRenderAudio a src).queuedBytes = a.queuedBytes) ∧
    (a.queuedBytes < audioMaxQueuedSize a →
      (hostRenderAudio a src).deviceQueue =
        a.deviceQueue ++ convertChunk src a.specSize ∧
      (hostRenderAudio a src).queuedBytes =
        a.queuedBytes + AUDIO_SPEC_SAMPLE_SIZE * (convertChunk src a.specSize).length) := by
  constructor
  · intro hge
    have hq : ¬a.queuedBytes < audioMaxQueuedSize a := not_lt.mpr hge
    exact ⟨hostRenderAudio_deviceQueue_of_ge a src hq,
      hostRenderAudio_queuedBytes_of_ge a src hq⟩
  · intro hlt
    refine ⟨hostRenderAudio_deviceQueue_of_lt a src hlt, ?_⟩
    rw [hostRenderAudio_queuedBytes_of_lt a src hlt, convertChunk_length]
    unfold AUDIO_FRAME_SIZE
    ring

theorem c2_backpressure_drop_or_append_witness :
    ((hostRenderAudio (hostInitAudio 8) [1, 2]).deviceQueue =
        (hostInitAudio 8).deviceQueue ++ convertChunk [1, 2] (hostInitAudio 8).specSize ∧
      (hostRenderAudio (hostInitAudio 8) [1, 2]).queuedBytes =
        (hostInitAudio 8).queuedBytes +
          AUDIO_SPEC_SAMPLE_SIZE * (convertChunk [1, 2] (hostInitAudio 8).specSize).length) ∧
    ((hostRenderAudio fullAudio [9, 9]).deviceQueue = fullAudio.deviceQueue ∧
      (hostRenderAudio fullAudio [9, 9]).queuedBytes = fullAudio.queuedBytes) :=
  ⟨(c2_backpressure_drop_or_append (hostInitAudio 8) [1, 2]).2 (by decide),
   (c2_backpressure_drop_or_append fullAudio [9, 9]).1 (by decide)⟩

/-- C3: the Priming→Ready transition of the audio pacer fires exactly once
per reset cycle: a delivery from the Ready state stays Ready; a reset returns
to Priming with an empty queue and a paused device; from Priming, a delivery
ends Ready iff the updated queued byte count reached
`AUDIO_TARGET_QUEUED_SIZE = 2 * spec.size`, and then the device is unpaused;
along any reset-free event sequence the transition fires at most once. -/
theorem c3_priming_to_ready_once (a : HostAudio) (src : List ℕ) (ops : List HostAudioOp) :
    (a.ready = true → (hostRenderAudio a src).ready = true) ∧
    ((hostResetAudio a).ready = false ∧ (hostResetAudio a).queuedBytes = 0 ∧
      (hostResetAudio a).devicePaused = true) ∧
    (a.ready = false →
      ((hostRenderAudio a src).ready = true ↔
        audioTargetQueuedSize a ≤ (hostRenderAudio a src).queuedBytes)) ∧
    (a.ready = false → (hostRenderAudio a src).ready = true →
      (hostRenderAudio a src).devicePaused = false) ∧
    ((∀ op ∈ ops, op ≠ HostAudioOp.reset) → fireCount a ops ≤ 1) :=
  ⟨hostRenderAudio_ready_of_ready a src, ⟨rfl, rfl, rfl⟩,
   hostRenderAudio_ready_iff a src, hostRenderAudio_unpauses a src,
   fun hops => fireCount_le_one ops a hops⟩

theorem c3_priming_to_ready_once_witness :
    ((hostRenderAudio (hostInitAudio 4) [0, 0, 1, 1]).ready = true ↔
      audioTargetQueuedSize (hostInitAudio 4) ≤
        (hostRenderAudio (hostInitAudio 4) [0, 0, 1, 1]).queuedBytes) ∧
    fireCount (hostInitAudio 4) [HostAudioOp.deliver [0, 0]] ≤ 1 :=
  ⟨(c3_priming_to_ready_once (hostInitAudio 4) [0, 0, 1, 1] []).2.2.1 rfl,
   (c3_priming_to_ready_once (hostInitAudio 4) [0, 0, 1, 1]
     [HostAudioOp.deliver [0, 0]]).2.2.2.2 (by decide)⟩

/-- C4 counterexample: with the `u32` cycle counter at `2^32 - 1`, a running,
event-free 1000 ms tick computes `delta_cycles = 4194304` but wraps
`until_cycles` to 4194303, so the counter afterwards is strictly below
`cycles_before + delta_cycles`. -/
theorem c4_cycles_wrap_cex :
    (hostRunMs cexHost 1000 []).cycles < cexHost.cycles + deltaCyclesOf 1000 := by
  rw [hostRunMs_cycles cexHost 1000 [] rfl]
  unfold untilCyclesOf
  rw [deltaCyclesOf_1000]
  decide

/-- C4 (amended): for every `delta_ms ≥ 0`, when not paused and provided the
`u32` target `cycles_before + delta_cycles` does not overflow, `host_run_ms`
leaves the cycle counter at least `cycles_before + delta_cycles` (with
`delta_cycles = ⌊delta_ms * CPU_CYCLES_PER_SECOND / 1000⌋`), with equality
when the core raises no intermediate events. -/
theorem c4_run_ms_advances_cycles (host : HostState) (deltaMs : ℚ)
    (interm : List (Bool × List ℕ)) (hms : 0 ≤ deltaMs)
    (hp : host.config.paused = false)
    (hwrap : host.cycles + deltaCyclesOf deltaMs < U32_MOD) :
    (hostRunMs host deltaMs interm).cycles ≥ host.cycles + deltaCyclesOf deltaMs ∧
    (interm = [] →
      (hostRunMs host deltaMs interm).cycles = host.cycles + deltaCyclesOf deltaMs) := by
  rw [hostRunMs_cycles host deltaMs interm hp]
  unfold untilCyclesOf
  rw [Nat.mod_eq_of_lt hwrap]
  exact ⟨le_refl _, fun _ => rfl⟩

theorem c4_run_ms_advances_cycles_witness :
    0 ≤ (1000 : ℚ) ∧
    (hostRunMs freshHost 1000 []).cycles = freshHost.cycles + deltaCyclesOf 1000 :=
  ⟨by norm_num,
   (c4_run_ms_advances_cycles freshHost 1000 [] (by norm_num) rfl
     (by rw [deltaCyclesOf_1000]; decide)).2 rfl⟩

/-- C5: after a resize to any viewport with `w > 0`, `h > 0`, the recomputed
quad's width:height ratio equals `SCREEN_WIDTH / SCREEN_HEIGHT`; the blank
bars are centered (left border = right border, top border = bottom border);
a viewport relatively wider than the target aspect is height-constrained,
otherwise it is width-constrained. -/
theorem c5_resize_preserves_aspect (screenW screenH w h : ℚ) (hsW : 0 < screenW)
    (hsH : 0 < screenH) (hw : 0 < w) (hh : 0 < h) :
    quadWidthOf screenW screenH w h / quadHeightOf screenW screenH w h =
      screenW / screenH ∧
    quadLeftBorderOf screenW screenH w h = quadRightBorderOf screenW screenH w h ∧
    quadTopBorderOf screenW screenH w h = quadBottomBorderOf screenW screenH w h ∧
    (screenW / screenH < w / h → quadHeightOf screenW screenH w h = h) ∧
    (w / h ≤ screenW / screenH → quadWidthOf screenW screenH w h = w) := by
  refine ⟨?_, ?_, ?_, ?_, ?_⟩
  · rw [quadWidthOf_eq, quadHeightOf_eq]
    exact newWidthOf_div_newHeightOf screenW screenH w h hw hh
  · simp only [quadLeftBorderOf, quadRightBorderOf, resizeVertices]
    ring
  · simp only [quadTopBorderOf, quadBottomBorderOf, resizeVertices]
    ring
  · intro hgt
    rw [quadHeightOf_eq]
    exact newHeightOf_of_gt screenW screenH w h hgt
  · intro hle
    rw [quadWidthOf_eq]
    exact newWidthOf_of_le screenW screenH w h hh hle

theorem c5_resize_preserves_aspect_witness :
    0 < (160 : ℚ) ∧ 0 < (144 : ℚ) ∧ 0 < (640 : ℚ) ∧ 0 < (480 : ℚ) ∧
    quadWidthOf 160 144 640 480 / quadHeightOf 160 144 640 480 = 160 / 144 :=
  ⟨by norm_num, by norm_num, by norm_num, by norm_num,
   (c5_resize_preserves_aspect 160 144 640 480 (by norm_num) (by norm_num)
     (by norm_num) (by norm_num)).1⟩

/-- C6: `host_set_config` resets the audio pacer (queued bytes 0, device
paused, state Priming) whenever the `paused` flag or the `no_sync` flag
changes; when both are unchanged — in particular on a fullscreen-only
change — the audio state is untouched. -/
theorem c6_set_config_resets_audio (host : HostState) (newConfig : HostConfig) :
    ((host.config.paused ≠ newConfig.paused ∨ host.config.noSync ≠ newConfig.noSync) →
      (hostSetConfig host newConfig).audio.queuedBytes = 0 ∧
      (hostSetConfig host newConfig).audio.devicePaused = true ∧
      (hostSetConfig host newConfig).audio.ready = false) ∧
    ((host.config.paused = newConfig.paused ∧ host.config.noSync = newConfig.noSync) →
      (hostSetConfig host newConfig).audio = host.audio) := by
  constructor
  · intro hchange
    unfold hostSetConfig
    split_ifs with h1 h2 h3
    · exact ⟨rfl, rfl, rfl⟩
    · exact ⟨rfl, rfl, rfl⟩
    · exact ⟨rfl, rfl, rfl⟩
    · rcases hchange with hpa | hns
      · exact absurd hpa h3
      · exact absurd hns h1
  · rintro ⟨hpa, hns⟩
    simp [hostSetConfig, hpa, hns]

theorem c6_set_config_resets_audio_witness :
    ((hostSetConfig freshHost pausedConfig).audio.queuedBytes = 0 ∧
      (hostSetConfig freshHost pausedConfig).audio.devicePaused = true ∧
      (hostSetConfig freshHost pausedConfig).audio.ready = false) ∧
    (hostSetConfig freshHost fullscreenConfig).audio = freshHost.audio :=
  ⟨(c6_set_config_resets_audio freshHost pausedConfig).1 (Or.inl (by decide)),
   (c6_set_config_resets_audio freshHost fullscreenConfig).2 (by decide)⟩

/-- C7: if `host_run_ms` is entered running (`paused = FALSE`) with a pending
single-step request (`step = TRUE`) and runs to completion, then on return
the config is paused and the step request is cleared. -/
theorem c7_single_step_pauses (host : HostState) (deltaMs : ℚ)
    (interm : List (Bool × List ℕ)) (hp : host.config.paused = false)
    (hs : host.config.step = true) :
    (hostRunMs host deltaMs interm).config.paused = true ∧
    (hostRunMs host deltaMs interm).config.step = false := by
  simp only [hostRunMs, hp, Bool.false_eq_true, if_false]
  split
  · rw [hostSetConfig_config]
    exact ⟨rfl, rfl⟩
  · next hcond => exact absurd hs hcond

theorem c7_single_step_pauses_witness :
    (hostRunMs steppingHost 1 []).config.paused = true ∧
    (hostRunMs steppingHost 1 []).config.step = false :=
  c7_single_step_pauses steppingHost 1 [] rfl rfl

/-- C8 counterexample: at a `u32` cycle counter of `2^32 - 1`, a running
1000 ms tick computes an `until_cycles` of 4194303, strictly below the
current cycle count — the tick asks the core to run to a target below its
current position, refuting unconditional monotonicity. -/
theorem c8_until_below_current_cex : untilCyclesOf cexHost 1000 < cexHost.cycles := by
  unfold untilCyclesOf
  rw [deltaCyclesOf_1000]
  decide

/-- C8 (amended): across two successive running ticks, provided neither
`u32` target computation overflows, `until_cycles` is monotonically
non-decreasing and never below the current cycle count. -/
theorem c8_until_cycles_monotone (host : HostState) (d1 d2 : ℚ)
    (i1 : List (Bool × List ℕ)) (hp : host.config.paused = false)
    (hstep : host.config.step = false) (h1 : 0 ≤ d1) (h2 : 0 ≤ d2)
    (hw1 : host.cycles + deltaCyclesOf d1 < U32_MOD)
    (hw2 : (hostRunMs host d1 i1).cycles + deltaCyclesOf d2 < U32_MOD) :
    host.cycles ≤ untilCyclesOf host d1 ∧
    untilCyclesOf host d1 ≤ untilCyclesOf (hostRunMs host d1 i1) d2 := by
  have e1 : untilCyclesOf host d1 = host.cycles + deltaCyclesOf d1 := by
    unfold untilCyclesOf
    exact Nat.mod_eq_of_lt hw1
  have e2 : (hostRunMs host d1 i1).cycles = host.cycles + deltaCyclesOf d1 := by
    rw [hostRunMs_cycles host d1 i1 hp]
    exact e1
  have e3 : untilCyclesOf (hostRunMs host d1 i1) d2 =
      (hostRunMs host d1 i1).cycles + deltaCyclesOf d2 := by
    unfold untilCyclesOf
    exact Nat.mod_eq_of_lt hw2
  constructor
  · rw [e1]
    exact Nat.le_add_right _ _
  · rw [e1, e3, e2]
    exact Nat.le_add_right _ _

theorem c8_until_cycles_monotone_witness :
    freshHost.cycles ≤ untilCyclesOf freshHost 1000 ∧
    untilCyclesOf freshHost 1000 ≤ untilCyclesOf (hostRunMs freshHost 1000 []) 1000 :=
  c8_until_cycles_monotone freshHost 1000 1000 [] rfl rfl (by norm_num) (by norm_num)
    (by rw [deltaCyclesOf_1000]; decide)
    (by rw [hostRunMs_cycles freshHost 1000 [] rfl]
        unfold untilCyclesOf
        rw [deltaCyclesOf_1000]
        decide)

/-- C9: the conversion of `host_render_audio` produces exactly
`min(available source frames, spec.size / AUDIO_FRAME_SIZE)` frames, and each
8-bit source sample `x` becomes the 16-bit sample `x <<< 8` — a pure widening
shift, the `u16` store truncating nothing. -/
theorem c9_conversion_min_and_shift (src : List ℕ) (s : ℕ)
    (hsrc : ∀ x ∈ src, x < 256) :
    convertChunk src s =
      (src.take (AUDIO_SPEC_CHANNELS * min (src.length / 2) (s / AUDIO_FRAME_SIZE))).map
        (fun x => x <<< 8) ∧
    (convertChunk src s).length =
      AUDIO_SPEC_CHANNELS * min (src.length / 2) (s / AUDIO_FRAME_SIZE) := by
  constructor
  · unfold convertChunk framesFor
    apply List.map_congr_left
    intro x hx
    have hxlt : x < 256 := hsrc x (List.mem_of_mem_take hx)
    unfold audioConvertSampleFromU8
    apply Nat.mod_eq_of_lt
    rw [Nat.shiftLeft_eq]
    norm_num
    omega
  · rw [convertChunk_length]
    rfl

theorem c9_conversion_min_and_shift_witness :
    (∀ x ∈ ([1, 2, 3] : List ℕ), x < 256) ∧
    convertChunk [1, 2, 3] 8 =
      (([1, 2, 3] : List ℕ).take
          (AUDIO_SPEC_CHANNELS * min (([1, 2, 3] : List ℕ).length / 2) (8 / AUDIO_FRAME_SIZE))).map
        (fun x => x <<< 8) :=
  ⟨by decide, (c9_conversion_min_and_shift [1, 2, 3] 8 (by decide)).1⟩

/-- C10: for any source and any spec size that is a positive multiple of
`AUDIO_FRAME_SIZE`, the conversion writes stay within the staging buffer:
the chunk's byte size is at most `spec.size` (the `dst_end` assertion) and
every loop iteration writes strictly before `dst_end` (the `dst + 2 ≤
dst_end` assertion). -/
theorem c10_staging_writes_in_bounds (src : List ℕ) (s : ℕ)
    (hmul : s % AUDIO_FRAME_SIZE = 0) (hpos : 0 < s) :
    AUDIO_SPEC_SAMPLE_SIZE * (convertChunk src s).length ≤ s ∧
    (∀ i < framesFor (src.length / 2) s,
      2 * i + 2 ≤ AUDIO_SPEC_CHANNELS * framesFor (src.length / 2) s) := by
  refine ⟨convertChunk_bytes_le src s, ?_⟩
  intro i hi
  unfold AUDIO_SPEC_CHANNELS
  omega

theorem c10_staging_writes_in_bounds_witness :
    8 % AUDIO_FRAME_SIZE = 0 ∧ 0 < 8 ∧
    AUDIO_SPEC_SAMPLE_SIZE * (convertChunk [1, 2, 3] 8).length ≤ 8 :=
  ⟨by decide, by decide,
   (c10_staging_writes_in_bounds [1, 2, 3] 8 (by decide) (by decide)).1⟩

end Binjgb
